import Mathlib

/-!
Verification of the holoworlds/C3 trading dashboard core against its
natural-language specification.

The JavaScript/TypeScript source is shallowly embedded: JS numbers carrying
price data become `ℚ`; the `NaN` sentinel used by the indicator code for
"undefined" values becomes `Option ℚ` with `none` playing the role of `NaN`
(`NaN` arithmetic propagates, modelled by `Option` matching); timestamps
become `ℕ`; strings stay `String`.  Fallible or externally-determined
effects (webhook delivery) are modelled by an explicit outcome parameter.
-/

/-- A price bar, translated from the `Candle` type used throughout the source
(fields `time, open, high, low, close, volume, isClosed` plus the optional
indicator fields filled in by `enrichCandlesWithIndicators`). -/
structure Candle where
  time : ℕ
  «open» : ℚ
  high : ℚ
  low : ℚ
  close : ℚ
  volume : ℚ
  isClosed : Bool
  ema7 : Option ℚ := none
  ema25 : Option ℚ := none
  ema99 : Option ℚ := none
  macdLine : Option ℚ := none
  macdSignal : Option ℚ := none
  macdHist : Option ℚ := none
  deriving DecidableEq

/-- The body of the `for (let i = period; i < candles.length; i++)` loop of
`calculateEMA` (src/components/LogPanel.tsx, `calculateEMA`): the accumulator
is the `emaArray` built so far; `emaArray[i-1]` is its last element since
exactly `i` values have been pushed when index `i` is processed.  The source
guard `if (isNaN(prevEMA)) { emaArray.push(price); continue; }` is the
wildcard branch (a `NaN` previous value is `none` here). -/
def emaLoopRaw (k : ℚ) (acc : List (Option ℚ)) : List ℚ → List (Option ℚ)
  | [] => acc
  | price :: rest =>
    match acc.getLast? with
    | some (some prevEMA) => emaLoopRaw k (acc ++ [some (price * k + prevEMA * (1 - k))]) rest
    | _ => emaLoopRaw k (acc ++ [some price]) rest

/-- `calculateEMA` from src/components/LogPanel.tsx, operating on the list of
closes (the source reads `candles[i].close` and nothing else of the candle).
`k = 2/(period+1)`; windows shorter than the period give all-`NaN`; otherwise
`period-1` leading `NaN`s, the simple average of the first `period` closes as
seed, then the recurrence. -/
def emaOfValues (closes : List ℚ) (period : ℕ) : List (Option ℚ) :=
  let k : ℚ := 2 / ((period : ℚ) + 1)
  if closes.length < period then
    List.replicate closes.length none
  else
    let initialEMA : ℚ := (closes.take period).sum / (period : ℚ)
    emaLoopRaw k (List.replicate (period - 1) none ++ [some initialEMA]) (closes.drop period)

/-- `calculateEMA` applied to a candle window (src/components/LogPanel.tsx). -/
def calculateEMA (candles : List Candle) (period : ℕ) : List (Option ℚ) :=
  emaOfValues (candles.map Candle.close) period

/-- Closed form of the EMA recurrence tail: given the previous EMA value,
produce the EMA value for each subsequent close. -/
def emaRec (k : ℚ) : ℚ → List ℚ → List ℚ
  | _, [] => []
  | prev, price :: rest =>
    (price * k + prev * (1 - k)) :: emaRec k (price * k + prev * (1 - k)) rest

/-- Value of the EMA series `j` steps after the seed (`j = 0` is the seed
itself). -/
def emaAt (k seed : ℚ) (tail : List ℚ) : ℕ → ℚ
  | 0 => seed
  | j + 1 => tail.getD j 0 * k + emaAt k seed tail j * (1 - k)

theorem emaLoopRaw_closed (k : ℚ) (prices : List ℚ) :
    ∀ (acc : List (Option ℚ)) (p : ℚ),
      emaLoopRaw k (acc ++ [some p]) prices =
        acc ++ [some p] ++ (emaRec k p prices).map some := by
  induction prices with
  | nil => intro acc p; simp [emaLoopRaw, emaRec]
  | cons price rest ih =>
    intro acc p
    rw [emaLoopRaw, List.getLast?_concat]
    have h := ih (acc ++ [some p]) (price * k + p * (1 - k))
    rw [List.append_assoc (acc ++ [some p])] at h
    simpa [emaRec, List.append_assoc] using h

theorem emaRec_length (k : ℚ) : ∀ (prev : ℚ) (l : List ℚ), (emaRec k prev l).length = l.length := by
  intro prev l
  induction l generalizing prev with
  | nil => rfl
  | cons c rest ih => simp [emaRec, ih]

theorem emaAt_cons (k seed c : ℚ) (rest : List ℚ) :
    ∀ m : ℕ, emaAt k seed (c :: rest) (m + 1) = emaAt k (c * k + seed * (1 - k)) rest m := by
  intro m
  induction m with
  | zero => simp [emaAt]
  | succ m ihm =>
    rw [emaAt, ihm]
    rw [show emaAt k (c * k + seed * (1 - k)) rest (m + 1) =
      rest.getD m 0 * k + emaAt k (c * k + seed * (1 - k)) rest m * (1 - k) from rfl]
    simp [List.getD]

theorem emaRec_get? (k : ℚ) (tail : List ℚ) :
    ∀ (seed : ℚ) (j : ℕ), j < tail.length →
      (emaRec k seed tail).get? j = some (emaAt k seed tail (j + 1)) := by
  induction tail with
  | nil => intro seed j h; simp at h
  | cons c rest ih =>
    intro seed j h
    match j with
    | 0 => simp [emaRec, emaAt]
    | j + 1 =>
      have hj : j < rest.length := by simpa using h
      rw [emaRec, List.get?_cons_succ, ih (c * k + seed * (1 - k)) j hj, emaAt_cons]

/-- Closed form of `emaOfValues` when the window is long enough. -/
theorem emaOfValues_closed (closes : List ℚ) (period : ℕ)
    (hp : 1 ≤ period) (hlen : period ≤ closes.length) :
    emaOfValues closes period =
      List.replicate (period - 1) (none : Option ℚ) ++
        some ((closes.take period).sum / (period : ℚ)) ::
          (emaRec (2 / ((period : ℚ) + 1)) ((closes.take period).sum / (period : ℚ))
            (closes.drop period)).map some := by
  rw [emaOfValues]
  rw [if_neg (by omega)]
  rw [emaLoopRaw_closed]
  simp

theorem emaOfValues_length (closes : List ℚ) (period : ℕ) (hp : 1 ≤ period) :
    (emaOfValues closes period).length = closes.length := by
  by_cases h : closes.length < period
  · rw [emaOfValues, if_pos h, List.length_replicate]
  · rw [emaOfValues_closed closes period hp (by omega)]
    simp [emaRec_length]
    omega

/-- Every entry of `emaOfValues` strictly before index `period - 1` is the
undefined sentinel. -/
theorem emaOfValues_get?_lt (closes : List ℚ) (period i : ℕ)
    (hp : 1 ≤ period) (hlen : period ≤ closes.length) (hi : i < period - 1) :
    (emaOfValues closes period).get? i = some none := by
  rw [emaOfValues_closed closes period hp hlen]
  rw [List.get?_append (by simpa using hi)]
  simp [List.get?_eq_getElem?, List.getElem?_replicate, hi]

/-- From index `period - 1` on, `emaOfValues` carries the value `emaAt`. -/
theorem emaOfValues_get?_ge (closes : List ℚ) (period i : ℕ)
    (hp : 1 ≤ period) (hlen : period ≤ closes.length)
    (hi1 : period - 1 ≤ i) (hi2 : i < closes.length) :
    (emaOfValues closes period).get? i =
      some (some (emaAt (2 / ((period : ℚ) + 1))
        ((closes.take period).sum / (period : ℚ)) (closes.drop period) (i - (period - 1)))) := by
  rw [emaOfValues_closed closes period hp hlen]
  rw [List.get?_append_right (by simpa using hi1)]
  rw [List.length_replicate]
  match hm : i - (period - 1) with
  | 0 => simp [emaAt]
  | j + 1 =>
    rw [List.get?_cons_succ, List.get?_map]
    rw [emaRec_get? _ _ _ j (by simp; omega)]
    simp

/-- The close prices of a candle window as read by the indicator code. -/
def closesOf (candles : List Candle) : List ℚ :=
  candles.map Candle.close

/-- A bare demo candle with the given time and close, as used in the spec
scenario for the EMA. -/
def demoCandle (t : ℕ) (c : ℚ) : Candle :=
  { time := t, «open» := c, high := c, low := c, close := c, volume := 0, isClosed := true }

/-- The five-candle demo window with closes 1, 2, 3, 4, 5. -/
def demoCandles : List Candle :=
  [demoCandle 0 1, demoCandle 1 2, demoCandle 2 3, demoCandle 3 4, demoCandle 4 5]

/-- C1: for every candle window and period P ≥ 1, `calculateEMA` returns one
value per candle; if the window has fewer than P candles every value is
undefined; otherwise values at indices below P−1 are undefined, the value at
index P−1 is the simple average of the first P closes, and every value at an
index i ≥ P equals `close[i]·k + ema[i−1]·(1−k)` with `k = 2/(P+1)`.  In
particular EMA(period 3) over closes [1,2,3,4,5] yields the sentinel twice
and then 2, 3, 4. -/
theorem calculateEMA_spec (candles : List Candle) (period : ℕ) (hp : 1 ≤ period) :
    (calculateEMA candles period).length = candles.length
    ∧ (candles.length < period →
        calculateEMA candles period = List.replicate candles.length none)
    ∧ (period ≤ candles.length →
        (∀ i, i < period - 1 → (calculateEMA candles period).get? i = some none)
        ∧ (calculateEMA candles period).get? (period - 1) =
            some (some (((closesOf candles).take period).sum / (period : ℚ)))
        ∧ (∀ i, period ≤ i → i < candles.length →
            ∃ p, (calculateEMA candles period).get? (i - 1) = some (some p)
              ∧ (calculateEMA candles period).get? i =
                  some (some ((closesOf candles).getD i 0 * (2 / ((period : ℚ) + 1))
                    + p * (1 - 2 / ((period : ℚ) + 1))))))
    ∧ calculateEMA demoCandles 3 = [none, none, some 2, some 3, some 4] := by
  have hclen : (candles.map Candle.close).length = candles.length := List.length_map _ _
  refine ⟨?_, ?_, ?_, ?_⟩
  · rw [calculateEMA, emaOfValues_length _ _ hp, hclen]
  · intro hshort
    rw [calculateEMA, emaOfValues, if_pos (by omega), hclen]
  · intro hlong
    have hlen : period ≤ (candles.map Candle.close).length := by omega
    refine ⟨?_, ?_, ?_⟩
    · intro i hi
      exact emaOfValues_get?_lt _ _ _ hp hlen hi
    · rw [calculateEMA, emaOfValues_get?_ge _ _ _ hp hlen (le_refl _) (by omega)]
      simp [emaAt, closesOf]
    · intro i hig hil
      refine ⟨emaAt (2 / ((period : ℚ) + 1))
        (((candles.map Candle.close).take period).sum / (period : ℚ))
        ((candles.map Candle.close).drop period) (i - period), ?_, ?_⟩
      · rw [calculateEMA, emaOfValues_get?_ge _ _ _ hp hlen (by omega) (by omega)]
        rw [show i - 1 - (period - 1) = i - period by omega]
      · rw [calculateEMA, emaOfValues_get?_ge _ _ _ hp hlen (by omega) (by omega)]
        rw [show i - (period - 1) = (i - period) + 1 by omega]
        rw [emaAt]
        rw [List.getD_eq_get?, List.get?_eq_getElem?, List.getElem?_drop]
        rw [show period + (i - period) = i by omega]
        rw [closesOf, List.getD_eq_get?, List.get?_eq_getElem?]
  · norm_num [calculateEMA, emaOfValues, emaLoopRaw, demoCandles, demoCandle,
      List.replicate, List.getLast?]

/-- Witness for `calculateEMA_spec` at the concrete demo window and period 3. -/
theorem calculateEMA_spec_witness :
    1 ≤ 3 ∧ (calculateEMA demoCandles 3).length = demoCandles.length :=
  ⟨by norm_num, (calculateEMA_spec demoCandles 3 (by norm_num)).1⟩

/-- Sum of a list of JS numbers that may contain the `NaN` sentinel: any
`NaN` term makes the whole sum `NaN` (the `sum += values[firstValidIdx+i]`
loop of `calculateEMAFromValues` in src/components/LogPanel.tsx). -/
def optSum : List (Option ℚ) → Option ℚ
  | [] => some 0
  | none :: _ => none
  | some v :: rest => (optSum rest).map (fun s => v + s)

/-- The `for (let i = firstValidIdx + period; i < values.length; i++)` loop of
`calculateEMAFromValues`: a `NaN` input value is pushed as-is; otherwise the
source pushes `val·k + prev·(1−k)` where `prev = result[i-1]` is the last
element pushed so far, and a `NaN` previous value poisons the result
(`NaN` arithmetic), hence the wildcard branch pushing the sentinel. -/
def emaLoopSig (k : ℚ) (acc : List (Option ℚ)) : List (Option ℚ) → List (Option ℚ)
  | [] => acc
  | val :: rest =>
    match val with
    | none => emaLoopSig k (acc ++ [none]) rest
    | some v =>
      match acc.getLast? with
      | some (some p) => emaLoopSig k (acc ++ [some (v * k + p * (1 - k))]) rest
      | _ => emaLoopSig k (acc ++ [none]) rest

/-- `calculateEMAFromValues` from `calculateMACD` (src/components/LogPanel.tsx):
the EMA of a raw value series that may lead with `NaN`s.  It finds the first
non-`NaN` index, requires `period` further values, seeds with the simple
average, runs the recurrence, then pads/truncates to the original length
(both no-ops in practice). -/
def calculateEMAFromValues (values : List (Option ℚ)) (period : ℕ) : List (Option ℚ) :=
  let k : ℚ := 2 / ((period : ℚ) + 1)
  match values.findIdx? (fun v => v.isSome) with
  | none => List.replicate values.length none
  | some firstValidIdx =>
    if values.length - firstValidIdx < period then
      List.replicate values.length none
    else
      let initial : Option ℚ :=
        (optSum ((values.drop firstValidIdx).take period)).map (fun s => s / (period : ℚ))
      let r := emaLoopSig k
        (List.replicate firstValidIdx none ++ List.replicate (period - 1) none ++ [initial])
        (values.drop (firstValidIdx + period))
      let padded := List.replicate (values.length - r.length) none ++ r
      padded.drop (padded.length - values.length)

/-- Pointwise difference of two JS number series with `NaN` propagation:
`some (a − b)` when both are defined, the sentinel otherwise. -/
def optSub (a b : Option ℚ) : Option ℚ :=
  match a, b with
  | some x, some y => some (x - y)
  | _, _ => none

/-- `calculateMACD` from src/components/LogPanel.tsx: the MACD line is the
index-wise difference of the fast and slow EMAs (`NaN` if either operand is
`NaN`), the signal line is `calculateEMAFromValues` of the MACD line, and the
histogram is `macdLine[i] − macdSignalLine[i]` (`NaN` propagates). -/
def calculateMACD (candles : List Candle) (fast slow signal : ℕ) :
    List (Option ℚ) × List (Option ℚ) × List (Option ℚ) :=
  let emaFast := calculateEMA candles fast
  let emaSlow := calculateEMA candles slow
  let macdLine := (List.range candles.length).map
    (fun i => optSub (emaFast.getD i none) (emaSlow.getD i none))
  let macdSignalLine := calculateEMAFromValues macdLine signal
  let macdHist := (List.range macdLine.length).map
    (fun i => optSub (macdLine.getD i none) (macdSignalLine.getD i none))
  (macdLine, macdSignalLine, macdHist)

/-- The optional MACD parameters handed to `enrichCandlesWithIndicators`. -/
structure MacdParams where
  macdFast : ℕ
  macdSlow : ℕ
  macdSignal : ℕ
  deriving DecidableEq

/-- The indexed map of `enrichCandlesWithIndicators`: each candle is copied
with its indicator fields set from the computed series at its index. -/
def enrichLoop (e7 e25 e99 line sig hist : List (Option ℚ)) : ℕ → List Candle → List Candle
  | _, [] => []
  | i, c :: rest =>
    { c with ema7 := e7.getD i none, ema25 := e25.getD i none, ema99 := e99.getD i none,
             macdLine := line.getD i none, macdSignal := sig.getD i none,
             macdHist := hist.getD i none } :: enrichLoop e7 e25 e99 line sig hist (i + 1) rest

/-- `enrichCandlesWithIndicators` from src/components/LogPanel.tsx.  The JS
`config?.macdFast || 50` treats an absent config and a zero period alike and
falls back to the default (50 / 150 / 9). -/
def enrichCandlesWithIndicators (candles : List Candle) (config : Option MacdParams) :
    List Candle :=
  if candles.length = 0 then []
  else
    let ema7 := calculateEMA candles 7
    let ema25 := calculateEMA candles 25
    let ema99 := calculateEMA candles 99
    let f := match config with
      | none => 50
      | some c => if c.macdFast = 0 then 50 else c.macdFast
    let s := match config with
      | none => 150
      | some c => if c.macdSlow = 0 then 150 else c.macdSlow
    let sig := match config with
      | none => 9
      | some c => if c.macdSignal = 0 then 9 else c.macdSignal
    let r := calculateMACD candles f s sig
    enrichLoop ema7 ema25 ema99 r.1 r.2.1 r.2.2 0 candles

theorem emaLoopSig_closed (k : ℚ) (vs : List ℚ) :
    ∀ (acc : List (Option ℚ)) (p : ℚ),
      emaLoopSig k (acc ++ [some p]) (vs.map some) =
        acc ++ [some p] ++ (emaRec k p vs).map some := by
  induction vs with
  | nil => intro acc p; simp [emaLoopSig, emaRec]
  | cons v rest ih =>
    intro acc p
    rw [List.map_cons, emaLoopSig, List.getLast?_concat]
    have h := ih (acc ++ [some p]) (v * k + p * (1 - k))
    rw [List.append_assoc (acc ++ [some p])] at h
    simpa [emaRec, List.append_assoc] using h

theorem optSum_map_some (vs : List ℚ) : optSum (vs.map some) = some vs.sum := by
  induction vs with
  | nil => rfl
  | cons v rest ih => simp [optSum, ih]

theorem findIdx?_isSome_map_some (vs : List ℚ) (i : ℕ) :
    (vs.map some).findIdx? (fun v => v.isSome) i = if vs.isEmpty then none else some i := by
  cases vs <;> simp [List.findIdx?_cons]

theorem findIdx?_isSome_replicate_none (f : ℕ) :
    ∀ (l : List (Option ℚ)) (i : ℕ),
      (List.replicate f (none : Option ℚ) ++ l).findIdx? (fun v => v.isSome) i =
        l.findIdx? (fun v => v.isSome) (i + f) := by
  induction f with
  | zero => intro l i; simp
  | succ f ih =>
    intro l i
    rw [List.replicate_succ, List.cons_append, List.findIdx?_cons]
    simp only [Option.isSome_none, Bool.false_eq_true, if_false, cond_false]
    rw [ih l (i + 1)]
    congr 1
    omega

/-- Padding a list on the left to a target length it already has and then
truncating back to that length are both no-ops. -/
theorem pad_trunc_self (r : List (Option ℚ)) (n : ℕ) (h : r.length = n) :
    (List.replicate (n - r.length) (none : Option ℚ) ++ r).drop
      ((List.replicate (n - r.length) (none : Option ℚ) ++ r).length - n) = r := by
  subst h
  simp

/-- `calculateEMAFromValues` on a series that is `f` sentinels followed by
plain values equals the plain-value EMA, left-padded by the same `f`
sentinels: the spec's description of the MACD signal line. -/
theorem calculateEMAFromValues_padded (f : ℕ) (vs : List ℚ) (period : ℕ) (hp : 1 ≤ period) :
    calculateEMAFromValues (List.replicate f none ++ vs.map some) period =
      List.replicate f none ++ emaOfValues vs period := by
  rw [calculateEMAFromValues]
  have hL : (List.replicate f (none : Option ℚ) ++ vs.map some).length = f + vs.length := by
    simp
  by_cases hvs : vs = []
  · subst hvs
    rw [findIdx?_isSome_replicate_none]
    rw [emaOfValues, if_pos (by simpa using hp)]
    simp
  · rw [findIdx?_isSome_replicate_none, findIdx?_isSome_map_some]
    rw [if_neg (by simp [hvs])]
    rw [Nat.zero_add]
    dsimp only
    by_cases hshort : vs.length < period
    · rw [if_pos (by rw [hL]; omega)]
      rw [emaOfValues, if_pos hshort, hL, List.replicate_add]
    · rw [if_neg (by rw [hL]; omega)]
      have hdropf : (List.replicate f (none : Option ℚ) ++ vs.map some).drop f =
          vs.map some := List.drop_left' (by simp)
      have hdropfp : (List.replicate f (none : Option ℚ) ++ vs.map some).drop
          (f + period) = (vs.drop period).map some := by
        rw [← List.drop_drop, hdropf, List.map_drop]
      rw [hdropf, hdropfp]
      rw [← List.map_take, optSum_map_some]
      rw [show (Option.some ((vs.take period).sum)).map (fun s => s / (period : ℚ)) =
          some ((vs.take period).sum / (period : ℚ)) from rfl]
      rw [show List.replicate f (none : Option ℚ) ++ List.replicate (period - 1) none ++
            [some ((vs.take period).sum / (period : ℚ))] =
          (List.replicate f (none : Option ℚ) ++ List.replicate (period - 1) none) ++
            [some ((vs.take period).sum / (period : ℚ))] from by
        rw [List.append_assoc]]
      rw [emaLoopSig_closed]
      rw [pad_trunc_self _ _ (by simp [emaRec_length]; omega)]
      rw [emaOfValues_closed _ _ hp (by omega)]
      rw [List.append_assoc, List.append_assoc, List.singleton_append]

/-- An EMA series is some number of leading sentinels followed by defined
values, together covering the whole window. -/
theorem emaOfValues_shape (closes : List ℚ) (period : ℕ) (hp : 1 ≤ period) :
    ∃ (a : ℕ) (vals : List ℚ),
      emaOfValues closes period = List.replicate a none ++ vals.map some
        ∧ a + vals.length = closes.length := by
  by_cases hshort : closes.length < period
  · refine ⟨closes.length, [], ?_, by simp⟩
    rw [emaOfValues, if_pos hshort]
    simp
  · refine ⟨period - 1,
      ((closes.take period).sum / (period : ℚ)) ::
        emaRec (2 / ((period : ℚ) + 1)) ((closes.take period).sum / (period : ℚ))
          (closes.drop period), ?_, ?_⟩
    · rw [emaOfValues_closed _ _ hp (by omega)]
      simp
    · simp [emaRec_length]
      omega

theorem padded_getD_lt (a : ℕ) (xs : List ℚ) (i : ℕ) (h : i < a) :
    (List.replicate a (none : Option ℚ) ++ xs.map some).getD i none = none := by
  rw [List.getD_eq_getElem?_getD]
  rw [List.getElem?_append_left (by simpa using h)]
  simp [List.getElem?_replicate, h]

theorem padded_getD_ge (a : ℕ) (xs : List ℚ) (i : ℕ) (h1 : a ≤ i) (h2 : i < a + xs.length) :
    (List.replicate a (none : Option ℚ) ++ xs.map some).getD i none =
      some (xs.getD (i - a) 0) := by
  rw [List.getD_eq_getElem?_getD]
  rw [List.getElem?_append_right (by simpa using h1)]
  rw [List.length_replicate]
  have hlt : i - a < xs.length := by omega
  rw [List.getElem?_map, List.getElem?_eq_getElem hlt]
  rw [List.getD_eq_getElem?_getD, List.getElem?_eq_getElem hlt]
  rfl

theorem padded_getD_ne_none (a : ℕ) (xs : List ℚ) (i : ℕ)
    (h : (List.replicate a (none : Option ℚ) ++ xs.map some).getD i none ≠ none) :
    a ≤ i := by
  by_contra hcon
  exact h (padded_getD_lt a xs i (by omega))

/-- A list whose entries are all defined is a `map some`. -/
theorem all_some_decomp (l : List (Option ℚ))
    (h : ∀ x, x ∈ l → x ≠ none) : ∃ vals : List ℚ, l = vals.map some := by
  induction l with
  | nil => exact ⟨[], rfl⟩
  | cons x rest ih =>
    obtain ⟨vals, hv⟩ := ih (fun y hy => h y (List.mem_cons_of_mem x hy))
    match x with
    | none => exact absurd rfl (h none (List.mem_cons_self _ _))
    | some v => exact ⟨v :: vals, by rw [List.map_cons, hv]⟩

/-- A list in which definedness is upward closed (once a defined entry
appears, everything after it is defined) decomposes into leading sentinels
followed by defined values. -/
theorem exists_padded_decomp (l : List (Option ℚ))
    (h : ∀ i j, i ≤ j → j < l.length → l.getD i none ≠ none → l.getD j none ≠ none) :
    ∃ (c : ℕ) (cs : List ℚ),
      l = List.replicate c none ++ cs.map some ∧ c + cs.length = l.length := by
  induction l with
  | nil => exact ⟨0, [], rfl, rfl⟩
  | cons x rest ih =>
    match x with
    | none =>
      obtain ⟨c, cs, hshape, hlen⟩ := ih (fun i j hij hj hi =>
        h (i + 1) (j + 1) (by omega) (by simpa using hj) (by simpa using hi))
      refine ⟨c + 1, cs, ?_, by simp at hlen ⊢; omega⟩
      rw [List.replicate_succ, List.cons_append, hshape]
    | some v =>
      have hall : ∀ y, y ∈ rest → y ≠ none := by
        intro y hy hynone
        obtain ⟨j, hjlt, hjget⟩ := List.mem_iff_getElem.mp hy
        have hne := h 0 (j + 1) (by omega) (by simpa using hjlt) (by simp [List.getD])
        apply hne
        rw [List.getD_eq_getElem?_getD]
        rw [List.getElem?_cons_succ, List.getElem?_eq_getElem hjlt, hjget, hynone]
        rfl
      obtain ⟨vals, hv⟩ := all_some_decomp rest hall
      exact ⟨0, v :: vals, by rw [hv]; rfl, by simp [hv]⟩

/-- Reading an index-built list back by index is the identity. -/
theorem range_map_getD (l : List (Option ℚ)) :
    (List.range l.length).map (fun j => l.getD j none) = l := by
  apply List.ext_get?
  intro i
  by_cases hi : i < l.length
  · rw [List.get?_eq_getElem?, List.getElem?_map, List.getElem?_range hi]
    rw [Option.map_some']
    rw [List.getD_eq_getElem?_getD, List.getElem?_eq_getElem hi]
    rw [List.get?_eq_getElem?, List.getElem?_eq_getElem hi]
    rfl
  · rw [List.get?_eq_getElem?, List.get?_eq_getElem?]
    rw [List.getElem?_eq_none (by simpa using hi), List.getElem?_eq_none (by omega)]

theorem range_map_get? (g : ℕ → Option ℚ) (n i : ℕ) (h : i < n) :
    ((List.range n).map g).get? i = some (g i) := by
  rw [List.get?_eq_getElem?, List.getElem?_map, List.getElem?_range h, Option.map_some']

theorem range_map_getD_lt (g : ℕ → Option ℚ) (n i : ℕ) (h : i < n) :
    ((List.range n).map g).getD i none = g i := by
  rw [List.getD_eq_getElem?_getD, List.getElem?_map, List.getElem?_range h, Option.map_some']
  rfl

theorem get?_some_imp_getD (l : List (Option ℚ)) (i : ℕ) (x : Option ℚ)
    (h : l.get? i = some x) : l.getD i none = x := by
  rw [List.getD_eq_getElem?_getD, ← List.get?_eq_getElem?, h]
  rfl

theorem lt_length_of_get?_some (l : List (Option ℚ)) (i : ℕ) (x : Option ℚ)
    (h : l.get? i = some x) : i < l.length := by
  by_contra hcon
  rw [List.get?_eq_getElem?, List.getElem?_eq_none (by omega)] at h
  cases h

theorem calculateMACD_line_def (candles : List Candle) (fast slow signal : ℕ) :
    (calculateMACD candles fast slow signal).1 =
      (List.range candles.length).map (fun i =>
        optSub ((calculateEMA candles fast).getD i none)
               ((calculateEMA candles slow).getD i none)) := rfl

theorem calculateMACD_signal_def (candles : List Candle) (fast slow signal : ℕ) :
    (calculateMACD candles fast slow signal).2.1 =
      calculateEMAFromValues (calculateMACD candles fast slow signal).1 signal := rfl

theorem calculateMACD_hist_def (candles : List Candle) (fast slow signal : ℕ) :
    (calculateMACD candles fast slow signal).2.2 =
      (List.range (calculateMACD candles fast slow signal).1.length).map (fun i =>
        optSub ((calculateMACD candles fast slow signal).1.getD i none)
               ((calculateMACD candles fast slow signal).2.1.getD i none)) := rfl

theorem calculateMACD_line_length (candles : List Candle) (fast slow signal : ℕ) :
    (calculateMACD candles fast slow signal).1.length = candles.length := by
  rw [calculateMACD_line_def]
  simp

theorem enrichLoop_map_macdLine (e7 e25 e99 ln sg hs : List (Option ℚ)) :
    ∀ (cs : List Candle) (i : ℕ),
      (enrichLoop e7 e25 e99 ln sg hs i cs).map (fun c => c.macdLine) =
        (List.range' i cs.length 1).map (fun j => ln.getD j none) := by
  intro cs
  induction cs with
  | nil => intro i; rfl
  | cons c rest ih => intro i; simp [enrichLoop, List.range'_succ, ih (i + 1)]

theorem enrichLoop_map_macdSignal (e7 e25 e99 ln sg hs : List (Option ℚ)) :
    ∀ (cs : List Candle) (i : ℕ),
      (enrichLoop e7 e25 e99 ln sg hs i cs).map (fun c => c.macdSignal) =
        (List.range' i cs.length 1).map (fun j => sg.getD j none) := by
  intro cs
  induction cs with
  | nil => intro i; rfl
  | cons c rest ih => intro i; simp [enrichLoop, List.range'_succ, ih (i + 1)]

theorem enrichLoop_map_macdHist (e7 e25 e99 ln sg hs : List (Option ℚ)) :
    ∀ (cs : List Candle) (i : ℕ),
      (enrichLoop e7 e25 e99 ln sg hs i cs).map (fun c => c.macdHist) =
        (List.range' i cs.length 1).map (fun j => hs.getD j none) := by
  intro cs
  induction cs with
  | nil => intro i; rfl
  | cons c rest ih => intro i; simp [enrichLoop, List.range'_succ, ih (i + 1)]

theorem optSub_ne_none (x y : Option ℚ) (h : optSub x y ≠ none) :
    (∃ u, x = some u) ∧ ∃ v, y = some v := by
  cases x <;> cases y <;> simp [optSub] at h ⊢

/-- C2: the MACD line is the index-wise difference of the fast and slow EMAs
(undefined whenever either operand is undefined); the signal line is the EMA,
with the same seed and recurrence rule, of the MACD-line values starting at
the first defined index, left-padded with the sentinel to the original
length; the histogram is line minus signal whenever both are defined and
undefined otherwise; and `enrichCandlesWithIndicators` copies these series
onto the candles verbatim (the sentinel stays undefined, it never becomes
zero). -/
theorem calculateMACD_spec (candles : List Candle) (fast slow signal : ℕ)
    (hf : 1 ≤ fast) (hs : 1 ≤ slow) (hg : 1 ≤ signal) :
    (∀ i x y, (calculateEMA candles fast).get? i = some (some x) →
        (calculateEMA candles slow).get? i = some (some y) →
        (calculateMACD candles fast slow signal).1.get? i = some (some (x - y)))
    ∧ (∀ i, i < candles.length →
        ((calculateEMA candles fast).get? i = some none ∨
          (calculateEMA candles slow).get? i = some none) →
        (calculateMACD candles fast slow signal).1.get? i = some none)
    ∧ (∃ (f : ℕ) (vs : List ℚ),
        (calculateMACD candles fast slow signal).1 =
          List.replicate f none ++ vs.map some
        ∧ (calculateMACD candles fast slow signal).2.1 =
          List.replicate f none ++ emaOfValues vs signal
        ∧ (calculateMACD candles fast slow signal).2.1.length = candles.length)
    ∧ (∀ i x y, (calculateMACD candles fast slow signal).1.get? i = some (some x) →
        (calculateMACD candles fast slow signal).2.1.get? i = some (some y) →
        (calculateMACD candles fast slow signal).2.2.get? i = some (some (x - y)))
    ∧ (∀ i, i < candles.length →
        ((calculateMACD candles fast slow signal).1.get? i = some none ∨
          (calculateMACD candles fast slow signal).2.1.get? i = some none) →
        (calculateMACD candles fast slow signal).2.2.get? i = some none)
    ∧ (enrichCandlesWithIndicators candles (some ⟨fast, slow, signal⟩)).map
        (fun c => c.macdLine) = (calculateMACD candles fast slow signal).1
    ∧ (enrichCandlesWithIndicators candles (some ⟨fast, slow, signal⟩)).map
        (fun c => c.macdSignal) = (calculateMACD candles fast slow signal).2.1
    ∧ (enrichCandlesWithIndicators candles (some ⟨fast, slow, signal⟩)).map
        (fun c => c.macdHist) = (calculateMACD candles fast slow signal).2.2 := by
  obtain ⟨a, as, hA, hAlen⟩ := emaOfValues_shape (candles.map Candle.close) fast hf
  obtain ⟨b, bs, hB, hBlen⟩ := emaOfValues_shape (candles.map Candle.close) slow hs
  rw [List.length_map] at hAlen hBlen
  have heflen : (calculateEMA candles fast).length = candles.length := by
    rw [calculateEMA, emaOfValues_length _ _ hf, List.length_map]
  have hlineptr : ∀ i, i < candles.length →
      (calculateMACD candles fast slow signal).1.get? i =
        some (optSub ((calculateEMA candles fast).getD i none)
          ((calculateEMA candles slow).getD i none)) := by
    intro i hi
    rw [calculateMACD_line_def]
    exact range_map_get? _ _ _ hi
  have hlinelen : (calculateMACD candles fast slow signal).1.length = candles.length :=
    calculateMACD_line_length candles fast slow signal
  have hlineD : ∀ i, i < candles.length →
      (calculateMACD candles fast slow signal).1.getD i none =
        optSub ((calculateEMA candles fast).getD i none)
          ((calculateEMA candles slow).getD i none) := by
    intro i hi
    rw [calculateMACD_line_def]
    exact range_map_getD_lt _ _ _ hi
  have hup : ∀ i j, i ≤ j → j < (calculateMACD candles fast slow signal).1.length →
      (calculateMACD candles fast slow signal).1.getD i none ≠ none →
      (calculateMACD candles fast slow signal).1.getD j none ≠ none := by
    intro i j hij hj hi
    rw [hlinelen] at hj
    have hi' : i < candles.length := by omega
    rw [hlineD i hi'] at hi
    rw [hlineD j hj]
    obtain ⟨⟨u, hu⟩, ⟨v, hv⟩⟩ := optSub_ne_none _ _ hi
    rw [calculateEMA, hA] at hu
    rw [calculateEMA, hB] at hv
    have hai : a ≤ i := padded_getD_ne_none a as i (by rw [hu]; simp)
    have hbi : b ≤ i := padded_getD_ne_none b bs i (by rw [hv]; simp)
    rw [calculateEMA, hA, padded_getD_ge a as j (by omega) (by omega)]
    rw [calculateEMA, hB, padded_getD_ge b bs j (by omega) (by omega)]
    simp [optSub]
  obtain ⟨c, cs, hcs, hclen⟩ := exists_padded_decomp _ hup
  rw [hlinelen] at hclen
  have hsig : (calculateMACD candles fast slow signal).2.1 =
      List.replicate c none ++ emaOfValues cs signal := by
    rw [calculateMACD_signal_def, hcs, calculateEMAFromValues_padded c cs signal hg]
  have hsiglen : (calculateMACD candles fast slow signal).2.1.length = candles.length := by
    rw [hsig]
    simp [emaOfValues_length cs signal hg]
    omega
  refine ⟨?_, ?_, ⟨c, cs, hcs, hsig, hsiglen⟩, ?_, ?_, ?_, ?_, ?_⟩
  · intro i x y hx hy
    have hi : i < candles.length := by
      have := lt_length_of_get?_some _ _ _ hx
      rwa [heflen] at this
    rw [hlineptr i hi, get?_some_imp_getD _ _ _ hx, get?_some_imp_getD _ _ _ hy]
    rfl
  · intro i hi h
    rw [hlineptr i hi]
    rcases h with h | h
    · rw [get?_some_imp_getD _ _ _ h]
      cases hY : (calculateEMA candles slow).getD i none <;> simp [optSub]
    · rw [get?_some_imp_getD _ _ _ h]
      cases hX : (calculateEMA candles fast).getD i none <;> simp [optSub]
  · intro i x y hx hy
    have hi : i < candles.length := by
      have := lt_length_of_get?_some _ _ _ hx
      rwa [hlinelen] at this
    rw [calculateMACD_hist_def, range_map_get? _ _ _ (by rw [hlinelen]; exact hi)]
    rw [get?_some_imp_getD _ _ _ hx, get?_some_imp_getD _ _ _ hy]
    rfl
  · intro i hi h
    rw [calculateMACD_hist_def, range_map_get? _ _ _ (by rw [hlinelen]; exact hi)]
    rcases h with h | h
    · rw [get?_some_imp_getD _ _ _ h]
      cases hY : (calculateMACD candles fast slow signal).2.1.getD i none <;> simp [optSub]
    · rw [get?_some_imp_getD _ _ _ h]
      cases hX : (calculateMACD candles fast slow signal).1.getD i none <;> simp [optSub]
  · by_cases hn : candles.length = 0
    · have hnil := List.length_eq_zero.mp hn
      subst hnil
      rfl
    · rw [enrichCandlesWithIndicators, if_neg hn]
      dsimp only
      rw [if_neg (by omega), if_neg (by omega), if_neg (by omega)]
      rw [enrichLoop_map_macdLine]
      rw [show List.range' 0 candles.length 1 = List.range candles.length from
        (List.range_eq_range' candles.length).symm]
      rw [← hlinelen]
      exact range_map_getD (calculateMACD candles fast slow signal).1
  · by_cases hn : candles.length = 0
    · have hnil := List.length_eq_zero.mp hn
      subst hnil
      rfl
    · rw [enrichCandlesWithIndicators, if_neg hn]
      dsimp only
      rw [if_neg (by omega), if_neg (by omega), if_neg (by omega)]
      rw [enrichLoop_map_macdSignal]
      rw [show List.range' 0 candles.length 1 = List.range candles.length from
        (List.range_eq_range' candles.length).symm]
      rw [← hsiglen]
      exact range_map_getD (calculateMACD candles fast slow signal).2.1
  · by_cases hn : candles.length = 0
    · have hnil := List.length_eq_zero.mp hn
      subst hnil
      rfl
    · rw [enrichCandlesWithIndicators, if_neg hn]
      dsimp only
      rw [if_neg (by omega), if_neg (by omega), if_neg (by omega)]
      rw [enrichLoop_map_macdHist]
      rw [show List.range' 0 candles.length 1 = List.range candles.length from
        (List.range_eq_range' candles.length).symm]
      have hhl : (calculateMACD candles fast slow signal).2.2.length = candles.length := by
        rw [calculateMACD_hist_def]
        simp [hlinelen]
      rw [← hhl]
      exact range_map_getD (calculateMACD candles fast slow signal).2.2

/-- Witness for `calculateMACD_spec` at the demo window with MACD(2, 3, 2). -/
theorem calculateMACD_spec_witness :
    1 ≤ 2 ∧ 1 ≤ 3 ∧
      (calculateMACD demoCandles 2 3 2).2.1.length = demoCandles.length := by
  refine ⟨by norm_num, by norm_num, ?_⟩
  obtain ⟨f, vs, _, _, hlen⟩ :=
    (calculateMACD_spec demoCandles 2 3 2 (by norm_num) (by norm_num) (by norm_num)).2.2.1
  exact hlen

/-- Position direction: the TS literal union `FLAT | LONG | SHORT` used both
for the position state and for the manual-order parameter. -/
inductive Direction where
  | FLAT
  | LONG
  | SHORT
  deriving DecidableEq

/-- `PositionState` from the app root (src/unnamed/part_002). -/
structure PositionState where
  direction : Direction
  initialQuantity : ℚ
  remainingQuantity : ℚ
  entryPrice : ℚ
  highestPrice : ℚ
  lowestPrice : ℚ
  openTime : ℕ
  tpLevelsHit : List String
  slLevelsHit : List String
  deriving DecidableEq

/-- `TradeStats` from the app root (src/unnamed/part_002). -/
structure TradeStats where
  dailyTradeCount : ℕ
  lastTradeDate : String
  deriving DecidableEq

/-- The fields of `StrategyConfig` used by the embedded operations. -/
structure StrategyConfig where
  id : String
  name : String
  symbol : String
  interval : String
  tradeAmount : ℚ
  maxDailyTrades : ℕ
  macdFast : ℕ
  macdSlow : ℕ
  macdSignal : ℕ
  secret : String
  webhookUrl : String
  deriving DecidableEq

/-- `StrategyRuntime` from the app root (src/unnamed/part_002). -/
structure StrategyRuntime where
  config : StrategyConfig
  candles : List Candle
  positionState : PositionState
  tradeStats : TradeStats
  lastPrice : ℚ
  deriving DecidableEq

/-- `INITIAL_POS_STATE` from the app root (src/unnamed/part_002, lines 11-21). -/
def INITIAL_POS_STATE : PositionState :=
  { direction := .FLAT, initialQuantity := 0, remainingQuantity := 0, entryPrice := 0,
    highestPrice := 0, lowestPrice := 0, openTime := 0, tpLevelsHit := [], slLevelsHit := [] }

/-- `WebhookPayload` as built by `handleManualOrder`. -/
structure WebhookPayload where
  secret : String
  action : String
  position : String
  symbol : String
  trade_amount : ℚ
  leverage : ℕ
  timestamp : String
  tv_exchange : String
  strategy_name : String
  tp_level : String
  execution_price : ℚ
  execution_quantity : ℚ
  deriving DecidableEq

/-- `handleManualOrder` from the app root (src/unnamed/part_002, lines
293-370), as a pure function of the active strategy runtime, the override
direction and the evaluation instant (`now.getTime()` and the ISO timestamp).
It returns the updated runtime together with the list of actions handed to
`sendWebhook`; the source calls `sendWebhook` exactly once, unconditionally,
so the action list is the singleton of the built payload.  The JS
`lastPrice || 0` maps the falsy price 0 to 0 and is the identity here. -/
def handleManualOrder (activeStrategy : StrategyRuntime) (type : Direction)
    (nowTime : ℕ) (nowIso : String) : StrategyRuntime × List WebhookPayload :=
  let price : ℚ := activeStrategy.lastPrice
  let act : String :=
    match type with
    | .LONG => "buy"
    | .SHORT => "sell"
    | .FLAT => if activeStrategy.positionState.direction = .LONG then "sell" else "buy_to_cover"
  let pos : String :=
    match type with
    | .LONG => "long"
    | .SHORT => "short"
    | .FLAT => "flat"
  let quantity : ℚ :=
    match type with
    | .LONG => if price > 0 then activeStrategy.config.tradeAmount / price else 0
    | .SHORT => if price > 0 then activeStrategy.config.tradeAmount / price else 0
    | .FLAT => activeStrategy.positionState.remainingQuantity
  let tradeAmount : ℚ :=
    match type with
    | .LONG => activeStrategy.config.tradeAmount
    | .SHORT => activeStrategy.config.tradeAmount
    | .FLAT => quantity * price
  let payload : WebhookPayload :=
    { secret := activeStrategy.config.secret, action := act, position := pos,
      symbol := activeStrategy.config.symbol, trade_amount := tradeAmount, leverage := 5,
      timestamp := nowIso, tv_exchange := "BINANCE", strategy_name := "Manual_Override",
      tp_level := "手动操作", execution_price := price, execution_quantity := quantity }
  let newState : PositionState :=
    match type with
    | .FLAT => INITIAL_POS_STATE
    | .LONG =>
      { direction := type, initialQuantity := quantity, remainingQuantity := quantity,
        entryPrice := price,
        highestPrice := if type = .LONG then price else 0,
        lowestPrice := if type = .SHORT then price else 0,
        openTime := nowTime, tpLevelsHit := [], slLevelsHit := [] }
    | .SHORT =>
      { direction := type, initialQuantity := quantity, remainingQuantity := quantity,
        entryPrice := price,
        highestPrice := if type = .LONG then price else 0,
        lowestPrice := if type = .SHORT then price else 0,
        openTime := nowTime, tpLevelsHit := [], slLevelsHit := [] }
  let newStats : TradeStats :=
    match type with
    | .FLAT => activeStrategy.tradeStats
    | .LONG => { activeStrategy.tradeStats with
                 dailyTradeCount := activeStrategy.tradeStats.dailyTradeCount + 1 }
    | .SHORT => { activeStrategy.tradeStats with
                  dailyTradeCount := activeStrategy.tradeStats.dailyTradeCount + 1 }
  ({ activeStrategy with positionState := newState, tradeStats := newStats }, [payload])

/-- The candle-merge step of `processGlobalRealtimeCandle` (src/unnamed/part_002,
lines 217-226): replace the last candle in place when the incoming bar has the
same timestamp, append otherwise, then keep only the most recent 550 bars
(`slice(-550)`). -/
def mergeCandle (candles : List Candle) (newCandle : Candle) : List Candle :=
  let updatedCandles :=
    match candles.getLast? with
    | some lastCandle =>
      if lastCandle.time = newCandle.time then candles.dropLast ++ [newCandle]
      else candles ++ [newCandle]
    | none => candles ++ [newCandle]
  if updatedCandles.length > 550 then
    updatedCandles.drop (updatedCandles.length - 550)
  else updatedCandles

/-- A `Partial<StrategyConfig>` update: present fields overwrite, absent
fields keep the old value (TS object spread). -/
structure StrategyConfigUpdate where
  symbol : Option String := none
  interval : Option String := none
  tradeAmount : Option ℚ := none
  maxDailyTrades : Option ℕ := none
  macdFast : Option ℕ := none
  macdSlow : Option ℕ := none
  macdSignal : Option ℕ := none
  secret : Option String := none
  webhookUrl : Option String := none
  deriving DecidableEq

/-- The spread `{ ...oldRuntime.config, ...updates }`. -/
def mergeConfig (old : StrategyConfig) (updates : StrategyConfigUpdate) : StrategyConfig :=
  { id := old.id, name := old.name,
    symbol := updates.symbol.getD old.symbol,
    interval := updates.interval.getD old.interval,
    tradeAmount := updates.tradeAmount.getD old.tradeAmount,
    maxDailyTrades := updates.maxDailyTrades.getD old.maxDailyTrades,
    macdFast := updates.macdFast.getD old.macdFast,
    macdSlow := updates.macdSlow.getD old.macdSlow,
    macdSignal := updates.macdSignal.getD old.macdSignal,
    secret := updates.secret.getD old.secret,
    webhookUrl := updates.webhookUrl.getD old.webhookUrl }

/-- `updateStrategyConfig` from the app root (src/unnamed/part_002, lines
97-122) applied to one runtime.  The JS reset guard
`updates.symbol && updates.symbol !== old.symbol` is truthiness-based: an
update to the empty string is falsy and does not trigger the reset even
though it changes the merged config. -/
def updateStrategyConfig (oldRuntime : StrategyRuntime) (updates : StrategyConfigUpdate) :
    StrategyRuntime :=
  let newConfig := mergeConfig oldRuntime.config updates
  let shouldResetData : Bool :=
    (updates.symbol.elim false
      (fun s => !(s == "") && !(s == oldRuntime.config.symbol)))
    || (updates.interval.elim false
      (fun iv => !(iv == "") && !(iv == oldRuntime.config.interval)))
  { oldRuntime with
    config := newConfig,
    candles := if shouldResetData then [] else oldRuntime.candles,
    lastPrice := if shouldResetData then 0 else oldRuntime.lastPrice }

/-- A signal-log entry as built by `sendWebhook`. -/
structure AlertLog where
  id : String
  strategyId : String
  strategyName : String
  timestamp : ℕ
  payload : WebhookPayload
  status : String
  type : String
  deriving DecidableEq

/-- The application state touched by `sendWebhook`: the strategy registry
(the `latestStrategiesRef` map, as an association list) and the log list. -/
structure AppState where
  strategies : List (String × StrategyRuntime)
  logs : List AlertLog
  deriving DecidableEq

/-- `sendWebhook` from the app root (src/unnamed/part_002, lines 265-291).
It prepends one log entry, reads the destination URL from the registry, and
issues at most one delivery attempt when the URL is truthy (non-empty); the
`try/catch` swallows a failed delivery, so the delivery outcome — the
`deliverySucceeds` oracle parameter — influences neither the returned state
nor anything else.  The returned list is the delivery attempts made. -/
def sendWebhook (st : AppState) (payload : WebhookPayload)
    (strategyId strategyName newLogId : String) (nowTs : ℕ)
    (deliverySucceeds : Bool) : AppState × List WebhookPayload :=
  let newLog : AlertLog :=
    { id := newLogId, strategyId := strategyId, strategyName := strategyName,
      timestamp := nowTs, payload := payload, status := "sent",
      type := if payload.tp_level = "Manual" then "Manual" else "Strategy" }
  let st' : AppState := { st with logs := newLog :: st.logs }
  let url : Option String := (st.strategies.lookup strategyId).map
    (fun rt => rt.config.webhookUrl)
  let attempts : List WebhookPayload :=
    match url with
    | some u => if u = "" then [] else [payload]
    | none => []
  (st', attempts)

/-- C3: merging an incoming bar whose timestamp is at least the last bar's
replaces the last bar in place on an equal timestamp and appends otherwise,
then truncates to the most recent 550 bars; the resulting window is again
strictly increasing by time. -/
theorem mergeCandle_spec (candles : List Candle) (newCandle : Candle)
    (hsorted : candles.Pairwise (fun x y => x.time < y.time))
    (hlast : ∀ last, candles.getLast? = some last → last.time ≤ newCandle.time) :
    ((∃ last, candles.getLast? = some last ∧ last.time = newCandle.time) →
        mergeCandle candles newCandle =
          (candles.dropLast ++ [newCandle]).drop
            ((candles.dropLast ++ [newCandle]).length - 550))
    ∧ ((∀ last, candles.getLast? = some last → last.time ≠ newCandle.time) →
        mergeCandle candles newCandle =
          (candles ++ [newCandle]).drop ((candles ++ [newCandle]).length - 550))
    ∧ (mergeCandle candles newCandle).length ≤ 550
    ∧ (mergeCandle candles newCandle).Pairwise (fun x y => x.time < y.time) := by
  have htrunc : ∀ m : List Candle,
      (if m.length > 550 then m.drop (m.length - 550) else m) = m.drop (m.length - 550) := by
    intro m
    by_cases h : m.length > 550
    · rw [if_pos h]
    · rw [if_neg h, show m.length - 550 = 0 from by omega, List.drop_zero]
  cases hgl : candles.getLast? with
  | none =>
    have hnil : candles = [] := List.getLast?_eq_none_iff.mp hgl
    subst hnil
    refine ⟨?_, ?_, ?_, ?_⟩
    · rintro ⟨last, hl, _⟩
      cases hl
    · intro h
      rw [mergeCandle]
      simp
    · rw [mergeCandle]
      simp
    · rw [mergeCandle]
      simp
  | some last =>
    have hdl : candles.dropLast ++ [last] = candles :=
      List.dropLast_append_getLast? last hgl
    have hdlsort : (candles.dropLast ++ [last]).Pairwise (fun x y => x.time < y.time) := by
      rw [hdl]
      exact hsorted
    have hfront : ∀ a, a ∈ candles.dropLast → a.time < last.time := by
      intro a ha
      have h3 := (List.pairwise_append.mp hdlsort).2.2
      exact h3 a ha last (List.mem_singleton_self last)
    have hmc : mergeCandle candles newCandle =
        (if last.time = newCandle.time then candles.dropLast ++ [newCandle]
         else candles ++ [newCandle]).drop
          ((if last.time = newCandle.time then candles.dropLast ++ [newCandle]
            else candles ++ [newCandle]).length - 550) := by
      rw [mergeCandle, hgl]
      exact htrunc _
    by_cases heq : last.time = newCandle.time
    · rw [if_pos heq] at hmc
      have hmsort : (candles.dropLast ++ [newCandle]).Pairwise
          (fun x y => x.time < y.time) := by
        rw [List.pairwise_append]
        refine ⟨List.Pairwise.sublist (List.dropLast_sublist candles) hsorted,
          List.pairwise_singleton _ _, ?_⟩
        intro a ha b hb
        rw [List.mem_singleton.mp hb]
        calc a.time < last.time := hfront a ha
          _ = newCandle.time := heq
      refine ⟨fun _ => hmc, ?_, ?_, ?_⟩
      · intro h
        exact absurd heq (h last rfl)
      · rw [hmc, List.length_drop]
        omega
      · rw [hmc]
        exact List.Pairwise.sublist (List.drop_sublist _ _) hmsort
    · rw [if_neg heq] at hmc
      have hlt : last.time < newCandle.time :=
        lt_of_le_of_ne (hlast last hgl) heq
      have hmsort : (candles ++ [newCandle]).Pairwise (fun x y => x.time < y.time) := by
        rw [List.pairwise_append]
        refine ⟨hsorted, List.pairwise_singleton _ _, ?_⟩
        intro a ha b hb
        rw [List.mem_singleton.mp hb]
        rw [← hdl] at ha
        rcases List.mem_append.mp ha with h | h
        · exact lt_trans (hfront a h) hlt
        · rw [List.mem_singleton.mp h]
          exact hlt
      refine ⟨?_, fun _ => hmc, ?_, ?_⟩
      · rintro ⟨last2, hl2, ht2⟩
        have h2 : last = last2 := Option.some.inj hl2
        subst h2
        exact absurd ht2 heq
      · rw [hmc, List.length_drop]
        omega
      · rw [hmc]
        exact List.Pairwise.sublist (List.drop_sublist _ _) hmsort

/-- A two-candle strictly increasing demo window for the merge witness. -/
def demoMergeWindow : List Candle :=
  [demoCandle 0 1, demoCandle 1 2]

/-- Witness for `mergeCandle_spec`: appending a later bar to a two-bar
window keeps the window sorted and within bounds. -/
theorem mergeCandle_spec_witness :
    (mergeCandle demoMergeWindow (demoCandle 2 3)).length ≤ 550
    ∧ (mergeCandle demoMergeWindow (demoCandle 2 3)).Pairwise
        (fun x y => x.time < y.time) := by
  have h := mergeCandle_spec demoMergeWindow (demoCandle 2 3)
    (by decide)
    (by
      intro last hl
      have h2 : some (demoCandle 1 2) = some last := hl
      injection h2 with h2
      rw [← h2]
      decide)
  exact ⟨h.2.2.1, h.2.2.2⟩

/-- A concrete base configuration for witnesses and counterexamples. -/
def cfg0 : StrategyConfig :=
  { id := "s1", name := "Strategy 1", symbol := "BTCUSDT", interval := "1m",
    tradeAmount := 1000, maxDailyTrades := 3, macdFast := 50, macdSlow := 150,
    macdSignal := 9, secret := "tok", webhookUrl := "https://example.com/hook" }

/-- A concrete runtime: flat position, five trades already counted on
2026-10-10, last price 100. -/
def wrt : StrategyRuntime :=
  { config := cfg0, candles := [], positionState := INITIAL_POS_STATE,
    tradeStats := { dailyTradeCount := 5, lastTradeDate := "2026-10-10" },
    lastPrice := 100 }

/-- C4: every manual override emits exactly one action; overrides to LONG or
SHORT increment the daily trade count by exactly one and are not blocked by
the daily trade cap (they emit and increment even at or above the cap); a
FLAT override's action carries the position's full remaining quantity and
leaves the trade stats untouched. -/
theorem handleManualOrder_actions_spec (rt : StrategyRuntime) (type : Direction)
    (nowTime : ℕ) (nowIso : String) :
    (handleManualOrder rt type nowTime nowIso).2.length = 1
    ∧ ((type = .LONG ∨ type = .SHORT) →
        (handleManualOrder rt type nowTime nowIso).1.tradeStats.dailyTradeCount =
          rt.tradeStats.dailyTradeCount + 1)
    ∧ ((type = .LONG ∨ type = .SHORT) →
        rt.config.maxDailyTrades ≤ rt.tradeStats.dailyTradeCount →
        (handleManualOrder rt type nowTime nowIso).2.length = 1
        ∧ (handleManualOrder rt type nowTime nowIso).1.tradeStats.dailyTradeCount =
            rt.tradeStats.dailyTradeCount + 1)
    ∧ (type = .FLAT →
        (∀ p ∈ (handleManualOrder rt type nowTime nowIso).2,
          p.execution_quantity = rt.positionState.remainingQuantity)
        ∧ (handleManualOrder rt type nowTime nowIso).1.tradeStats = rt.tradeStats) := by
  cases type <;> simp [handleManualOrder]

/-- Witness for `handleManualOrder_actions_spec`: a LONG override at a
runtime already at its daily cap (5 trades vs cap 3) still emits one action
and increments the count to 6. -/
theorem handleManualOrder_actions_spec_witness :
    (handleManualOrder wrt .LONG 0 "2026-10-11T00:00:00.000Z").2.length = 1
    ∧ (handleManualOrder wrt .LONG 0 "2026-10-11T00:00:00.000Z").1.tradeStats.dailyTradeCount =
        wrt.tradeStats.dailyTradeCount + 1 :=
  ⟨(handleManualOrder_actions_spec wrt .LONG 0 "2026-10-11T00:00:00.000Z").1,
    ((handleManualOrder_actions_spec wrt .LONG 0 "2026-10-11T00:00:00.000Z").2.2.1
      (Or.inl rfl) (by norm_num [wrt, cfg0])).2⟩

/-- C5 counterexample: a manual LONG entry from flat at price 100 seeds
`highestPrice` with the entry price but sets `lowestPrice` to 0, not to the
entry price as the claim states. -/
theorem manual_entry_seed_counterexample :
    wrt.positionState.direction = Direction.FLAT
    ∧ 0 < wrt.lastPrice
    ∧ (handleManualOrder wrt .LONG 7 "2026-10-11T00:00:00.000Z").1.positionState.entryPrice = 100
    ∧ (handleManualOrder wrt .LONG 7 "2026-10-11T00:00:00.000Z").1.positionState.highestPrice = 100
    ∧ (handleManualOrder wrt .LONG 7 "2026-10-11T00:00:00.000Z").1.positionState.lowestPrice = 0
    ∧ ¬((handleManualOrder wrt .LONG 7 "2026-10-11T00:00:00.000Z").1.positionState.lowestPrice =
        (handleManualOrder wrt .LONG 7 "2026-10-11T00:00:00.000Z").1.positionState.entryPrice) := by
  refine ⟨rfl, by norm_num [wrt], ?_⟩
  norm_num [handleManualOrder, wrt, cfg0]
  decide

/-- C5 amended: entering via a manual override at a positive price sets
`remainingQuantity = initialQuantity = tradeAmount / price` and
`entryPrice = price`, resets both level-hit sets, and increments
`dailyTradeCount` by one — but only the direction-relevant extreme is seeded
with the entry price: a LONG entry sets `highestPrice` to the price and
`lowestPrice` to 0, a SHORT entry symmetrically. -/
theorem manual_entry_state_amended (rt : StrategyRuntime) (type : Direction)
    (nowTime : ℕ) (nowIso : String)
    (hflat : rt.positionState.direction = .FLAT)
    (htype : type = .LONG ∨ type = .SHORT)
    (hpos : 0 < rt.lastPrice) :
    (handleManualOrder rt type nowTime nowIso).1.positionState.remainingQuantity =
      rt.config.tradeAmount / rt.lastPrice
    ∧ (handleManualOrder rt type nowTime nowIso).1.positionState.initialQuantity =
        (handleManualOrder rt type nowTime nowIso).1.positionState.remainingQuantity
    ∧ (handleManualOrder rt type nowTime nowIso).1.positionState.entryPrice = rt.lastPrice
    ∧ (type = .LONG →
        (handleManualOrder rt type nowTime nowIso).1.positionState.highestPrice = rt.lastPrice
        ∧ (handleManualOrder rt type nowTime nowIso).1.positionState.lowestPrice = 0)
    ∧ (type = .SHORT →
        (handleManualOrder rt type nowTime nowIso).1.positionState.lowestPrice = rt.lastPrice
        ∧ (handleManualOrder rt type nowTime nowIso).1.positionState.highestPrice = 0)
    ∧ (handleManualOrder rt type nowTime nowIso).1.positionState.tpLevelsHit = []
    ∧ (handleManualOrder rt type nowTime nowIso).1.positionState.slLevelsHit = []
    ∧ (handleManualOrder rt type nowTime nowIso).1.tradeStats.dailyTradeCount =
        rt.tradeStats.dailyTradeCount + 1 := by
  rcases htype with h | h <;> subst h <;> simp [handleManualOrder, hpos]

/-- Witness for `manual_entry_state_amended` at the concrete flat runtime. -/
theorem manual_entry_state_amended_witness :
    wrt.positionState.direction = Direction.FLAT ∧ 0 < wrt.lastPrice
    ∧ (handleManualOrder wrt .LONG 7 "t").1.positionState.remainingQuantity =
        wrt.config.tradeAmount / wrt.lastPrice :=
  ⟨rfl, by norm_num [wrt],
    (manual_entry_state_amended wrt .LONG 7 "t" rfl (Or.inl rfl) (by norm_num [wrt])).1⟩

/-- C6 counterexample: with five trades recorded for 2026-10-10, a manual
LONG override evaluated on 2026-10-11 yields a count of 6 — not a reset to a
fresh day's count of 1 — and leaves `lastTradeDate` at 2026-10-10. -/
theorem daily_reset_counterexample :
    wrt.tradeStats.lastTradeDate = "2026-10-10"
    ∧ (handleManualOrder wrt .LONG 0 "2026-10-11T00:00:00.000Z").1.tradeStats.dailyTradeCount = 6
    ∧ ¬((handleManualOrder wrt .LONG 0
        "2026-10-11T00:00:00.000Z").1.tradeStats.dailyTradeCount = 1)
    ∧ (handleManualOrder wrt .LONG 0
        "2026-10-11T00:00:00.000Z").1.tradeStats.lastTradeDate = "2026-10-10"
    ∧ ¬((handleManualOrder wrt .LONG 0
        "2026-10-11T00:00:00.000Z").1.tradeStats.lastTradeDate = "2026-10-11") := by
  refine ⟨rfl, ?_, ?_, rfl, by decide⟩
  · norm_num [handleManualOrder, wrt]
  · norm_num [handleManualOrder, wrt]

/-- Modelled from the spec: the automatic evaluation path — `evaluateStrategy`
in services/strategyEngine, a file not present under src/ — resets
`dailyTradeCount` to 0 and updates `lastTradeDate` the first time a trade is
evaluated on a calendar date different from `lastTradeDate` (process-local
time). -/
def resetDailyStatsIfNewDay (stats : TradeStats) (today : String) : TradeStats :=
  if stats.lastTradeDate = today then stats
  else { dailyTradeCount := 0, lastTradeDate := today }

/-- C6 amended: the daily reset belongs to the automatic evaluation path
(modelled from the spec, as `evaluateStrategy` is not under src/): there a
new calendar date resets the count to 0 and updates `lastTradeDate`, so the
first entry of the new day counts 1.  The manual-override path, however,
performs no reset: a LONG or SHORT override always increments the previous
count by one and leaves `lastTradeDate` untouched whatever the evaluation
date, and a FLAT override leaves the stats unchanged entirely. -/
theorem daily_reset_amended :
    (∀ (stats : TradeStats) (today : String), stats.lastTradeDate ≠ today →
      (resetDailyStatsIfNewDay stats today).dailyTradeCount = 0
      ∧ (resetDailyStatsIfNewDay stats today).lastTradeDate = today
      ∧ (resetDailyStatsIfNewDay stats today).dailyTradeCount + 1 = 1)
    ∧ (∀ (rt : StrategyRuntime) (type : Direction) (nowTime : ℕ) (nowIso : String),
        (type = .LONG ∨ type = .SHORT) →
        (handleManualOrder rt type nowTime nowIso).1.tradeStats.dailyTradeCount =
          rt.tradeStats.dailyTradeCount + 1
        ∧ (handleManualOrder rt type nowTime nowIso).1.tradeStats.lastTradeDate =
            rt.tradeStats.lastTradeDate)
    ∧ (∀ (rt : StrategyRuntime) (nowTime : ℕ) (nowIso : String),
        (handleManualOrder rt .FLAT nowTime nowIso).1.tradeStats = rt.tradeStats) := by
  refine ⟨?_, ?_, ?_⟩
  · intro stats today hne
    simp [resetDailyStatsIfNewDay, hne]
  · intro rt type nowTime nowIso htype
    rcases htype with h | h <;> subst h <;> simp [handleManualOrder]
  · intro rt nowTime nowIso
    simp [handleManualOrder]

/-- Witness for `daily_reset_amended` at the concrete runtime and a fresh
date. -/
theorem daily_reset_amended_witness :
    wrt.tradeStats.lastTradeDate ≠ "2026-10-11"
    ∧ (resetDailyStatsIfNewDay wrt.tradeStats "2026-10-11").dailyTradeCount = 0
    ∧ (handleManualOrder wrt .LONG 0 "t").1.tradeStats.dailyTradeCount =
        wrt.tradeStats.dailyTradeCount + 1 :=
  ⟨by decide,
    (daily_reset_amended.1 wrt.tradeStats "2026-10-11" (by decide)).1,
    (daily_reset_amended.2.1 wrt .LONG 0 "t" (Or.inl rfl)).1⟩

/-- C7: a manual LONG or SHORT order at a non-positive last price degrades
the quantity computation to 0 instead of dividing by the price: the emitted
action's quantity and the new position's quantities are all 0. -/
theorem manual_order_nonpositive_price_spec (rt : StrategyRuntime) (type : Direction)
    (nowTime : ℕ) (nowIso : String)
    (htype : type = .LONG ∨ type = .SHORT)
    (hprice : rt.lastPrice ≤ 0) :
    (∀ p ∈ (handleManualOrder rt type nowTime nowIso).2, p.execution_quantity = 0)
    ∧ (handleManualOrder rt type nowTime nowIso).1.positionState.remainingQuantity = 0
    ∧ (handleManualOrder rt type nowTime nowIso).1.positionState.initialQuantity = 0 := by
  have hnot : ¬(0 < rt.lastPrice) := not_lt.mpr hprice
  rcases htype with h | h <;> subst h <;> simp [handleManualOrder, hnot]

/-- A concrete runtime whose last known price is 0. -/
def wrt0 : StrategyRuntime :=
  { wrt with lastPrice := 0 }

/-- Witness for `manual_order_nonpositive_price_spec` at price 0. -/
theorem manual_order_nonpositive_price_spec_witness :
    wrt0.lastPrice ≤ 0
    ∧ (handleManualOrder wrt0 .LONG 0 "t").1.positionState.remainingQuantity = 0 :=
  ⟨by norm_num [wrt0, wrt],
    (manual_order_nonpositive_price_spec wrt0 .LONG 0 "t" (Or.inl rfl)
      (by norm_num [wrt0, wrt])).2.1⟩

/-- C10: a FLAT override while the position is already flat still emits
exactly one action — `buy_to_cover` on position `flat`, with quantity 0 and
trade amount 0 — and leaves the position at the initial flat state and the
trade stats unchanged. -/
theorem manual_flat_when_flat_spec (rt : StrategyRuntime) (nowTime : ℕ) (nowIso : String)
    (hdir : rt.positionState.direction = .FLAT)
    (hrem : rt.positionState.remainingQuantity = 0) :
    (handleManualOrder rt .FLAT nowTime nowIso).2.length = 1
    ∧ (∀ p ∈ (handleManualOrder rt .FLAT nowTime nowIso).2,
        p.action = "buy_to_cover" ∧ p.position = "flat"
        ∧ p.execution_quantity = 0 ∧ p.trade_amount = 0)
    ∧ (handleManualOrder rt .FLAT nowTime nowIso).1.positionState = INITIAL_POS_STATE
    ∧ (handleManualOrder rt .FLAT nowTime nowIso).1.tradeStats = rt.tradeStats := by
  simp [handleManualOrder, hdir, hrem]

/-- Witness for `manual_flat_when_flat_spec` at the concrete flat runtime. -/
theorem manual_flat_when_flat_spec_witness :
    wrt.positionState.direction = Direction.FLAT
    ∧ wrt.positionState.remainingQuantity = 0
    ∧ (handleManualOrder wrt .FLAT 0 "t").1.positionState = INITIAL_POS_STATE :=
  ⟨rfl, rfl, (manual_flat_when_flat_spec wrt 0 "t" rfl rfl).2.2.1⟩

/-- The reset condition of `updateStrategyConfig` as a proposition: some
field update carries a truthy (non-empty) value different from the current
one. -/
def ResetCondition (rt : StrategyRuntime) (updates : StrategyConfigUpdate) : Prop :=
  (∃ s, updates.symbol = some s ∧ s ≠ "" ∧ s ≠ rt.config.symbol)
  ∨ (∃ iv, updates.interval = some iv ∧ iv ≠ "" ∧ iv ≠ rt.config.interval)

theorem shouldResetData_iff (rt : StrategyRuntime) (updates : StrategyConfigUpdate) :
    ((updates.symbol.elim false
        (fun s => !(s == "") && !(s == rt.config.symbol)))
      || (updates.interval.elim false
        (fun iv => !(iv == "") && !(iv == rt.config.interval)))) = true
      ↔ ResetCondition rt updates := by
  rw [ResetCondition]
  cases hsy : updates.symbol <;> cases hiv : updates.interval <;>
    simp [Option.elim, Bool.or_eq_true, Bool.and_eq_true, Bool.not_eq_true']

/-- A runtime with a non-empty candle window and a non-zero last price, to
exhibit the reset behaviour of config updates. -/
def rt8 : StrategyRuntime :=
  { wrt with candles := [demoCandle 0 1], lastPrice := 42 }

/-- C8 counterexample: an update that sets the symbol to the empty string
changes the merged config's symbol but — because the JS guard
`updates.symbol && ...` is truthiness-based and the empty string is falsy —
does not reset the candle window or the last price. -/
theorem updateStrategyConfig_counterexample :
    rt8.config.symbol = "BTCUSDT"
    ∧ (updateStrategyConfig rt8 { symbol := some "" }).config.symbol = ""
    ∧ ¬((updateStrategyConfig rt8 { symbol := some "" }).config.symbol = rt8.config.symbol)
    ∧ (updateStrategyConfig rt8 { symbol := some "" }).candles = rt8.candles
    ∧ ¬(rt8.candles = [])
    ∧ (updateStrategyConfig rt8 { symbol := some "" }).lastPrice = rt8.lastPrice
    ∧ ¬(rt8.lastPrice = 0) := by
  refine ⟨rfl, rfl, by decide, rfl, by decide, rfl, ?_⟩
  norm_num [rt8, wrt]

/-- C8 amended: a partial config update merges field-wise into the config
and never touches `positionState` or `tradeStats`; the candle window and
`lastPrice` are reset exactly when the update carries a non-empty symbol
different from the current one or a non-empty interval different from the
current one (an update to the empty string changes the config but does not
reset, because the source's guard tests JS truthiness). -/
theorem updateStrategyConfig_amended (rt : StrategyRuntime) (updates : StrategyConfigUpdate) :
    (updateStrategyConfig rt updates).config = mergeConfig rt.config updates
    ∧ (ResetCondition rt updates →
        (updateStrategyConfig rt updates).candles = []
        ∧ (updateStrategyConfig rt updates).lastPrice = 0)
    ∧ (¬ResetCondition rt updates →
        (updateStrategyConfig rt updates).candles = rt.candles
        ∧ (updateStrategyConfig rt updates).lastPrice = rt.lastPrice)
    ∧ (updateStrategyConfig rt updates).positionState = rt.positionState
    ∧ (updateStrategyConfig rt updates).tradeStats = rt.tradeStats := by
  refine ⟨rfl, ?_, ?_, rfl, rfl⟩
  · intro h
    have hb := (shouldResetData_iff rt updates).mpr h
    constructor <;> simp [updateStrategyConfig, hb]
  · intro h
    have hb : ((updates.symbol.elim false
        (fun s => !(s == "") && !(s == rt.config.symbol)))
      || (updates.interval.elim false
        (fun iv => !(iv == "") && !(iv == rt.config.interval)))) = false := by
      rw [← Bool.not_eq_true]
      exact fun hc => h ((shouldResetData_iff rt updates).mp hc)
    constructor <;> simp [updateStrategyConfig, hb]

/-- Witness for `updateStrategyConfig_amended`: updating the symbol to a
different non-empty value resets the window and keeps the position state. -/
theorem updateStrategyConfig_amended_witness :
    (updateStrategyConfig rt8 { symbol := some "ETHUSDT" }).candles = []
    ∧ (updateStrategyConfig rt8 { symbol := some "ETHUSDT" }).lastPrice = 0
    ∧ (updateStrategyConfig rt8 { symbol := some "ETHUSDT" }).positionState =
        rt8.positionState :=
  ⟨((updateStrategyConfig_amended rt8 { symbol := some "ETHUSDT" }).2.1
      (Or.inl ⟨"ETHUSDT", rfl, by decide, by decide⟩)).1,
    ((updateStrategyConfig_amended rt8 { symbol := some "ETHUSDT" }).2.1
      (Or.inl ⟨"ETHUSDT", rfl, by decide, by decide⟩)).2,
    (updateStrategyConfig_amended rt8 { symbol := some "ETHUSDT" }).2.2.2.1⟩

/-- C9: dispatching an emitted action never touches position state: whatever
the delivery outcome, `sendWebhook` only prepends a log entry — the strategy
registry, hence every strategy's `positionState` and `tradeStats`, is
unchanged, the state after a failed delivery equals the state after a
successful one, and at most one delivery attempt is made (no retry). -/
theorem sendWebhook_frame_spec (st : AppState) (payload : WebhookPayload)
    (strategyId strategyName newLogId : String) (nowTs : ℕ) (deliverySucceeds : Bool) :
    (sendWebhook st payload strategyId strategyName newLogId nowTs
        deliverySucceeds).1.strategies = st.strategies
    ∧ (∀ id rt, st.strategies.lookup id = some rt →
        (sendWebhook st payload strategyId strategyName newLogId nowTs
            deliverySucceeds).1.strategies.lookup id = some rt
        ∧ ((sendWebhook st payload strategyId strategyName newLogId nowTs
            deliverySucceeds).1.strategies.lookup id).map
              (fun r => r.positionState) = some rt.positionState
        ∧ ((sendWebhook st payload strategyId strategyName newLogId nowTs
            deliverySucceeds).1.strategies.lookup id).map
              (fun r => r.tradeStats) = some rt.tradeStats)
    ∧ sendWebhook st payload strategyId strategyName newLogId nowTs true =
        sendWebhook st payload strategyId strategyName newLogId nowTs false
    ∧ (sendWebhook st payload strategyId strategyName newLogId nowTs
        deliverySucceeds).2.length ≤ 1 := by
  refine ⟨rfl, ?_, rfl, ?_⟩
  · intro id rt h
    refine ⟨h, ?_, ?_⟩ <;> rw [show (sendWebhook st payload strategyId strategyName newLogId
        nowTs deliverySucceeds).1.strategies = st.strategies from rfl, h] <;> rfl
  · cases hl : st.strategies.lookup strategyId with
    | none => simp [sendWebhook, hl]
    | some rt =>
      by_cases hu : rt.config.webhookUrl = "" <;> simp [sendWebhook, hl, hu]

/-- A concrete one-strategy application state. -/
def st0 : AppState :=
  { strategies := [("s1", wrt)], logs := [] }

/-- A concrete payload for the dispatch witness. -/
def pay0 : WebhookPayload :=
  { secret := "tok", action := "buy", position := "long", symbol := "BTCUSDT",
    trade_amount := 1000, leverage := 5, timestamp := "2026-10-11T00:00:00.000Z",
    tv_exchange := "BINANCE", strategy_name := "Manual_Override", tp_level := "手动操作",
    execution_price := 100, execution_quantity := 10 }

/-- Witness for `sendWebhook_frame_spec` on a concrete state, exercising the
inner lookup hypothesis. -/
theorem sendWebhook_frame_spec_witness :
    (sendWebhook st0 pay0 "s1" "Strategy 1" "log1" 0 true).1.strategies = st0.strategies
    ∧ (sendWebhook st0 pay0 "s1" "Strategy 1" "log1" 0 true).1.strategies.lookup "s1" =
        some wrt :=
  ⟨(sendWebhook_frame_spec st0 pay0 "s1" "Strategy 1" "log1" 0 true).1,
    ((sendWebhook_frame_spec st0 pay0 "s1" "Strategy 1" "log1" 0 true).2.1 "s1" wrt
      (by rfl)).1⟩
